import Mathlib

/-!
Verification of the conformation dataset engine of `utils/datasets.py`.

The development shallowly embeds the four algorithmic components of the
repository — the dataset splitter (`get_idx_split`), the graph-record
builders (`pdb_to_data`, `rdmol_to_data`), the spatial subgraph sampler
(`SidechainConformationDataset.__getitem__`), and the conformer packer
(`PackedConformationDataset._pack_data_by_mol`) — as executable Lean
functions, and proves the stated properties about them.

Conventions of the embedding:
* 3-D coordinates are rationals (`Vec3`); the distance test
  `norm(p - q) <= cutoff` of the source is embedded as the equivalent
  squared comparison `sqDist p q <= cutoff ^ 2` (for nonnegative cutoff).
* Tensors become lists; boolean-mask indexing `t[mask]` becomes `gather`
  over the list of selected indices; `torch_scatter.scatter(..., reduce =
  sum)` over a boolean mask followed by thresholding becomes an
  existential `any` over the indices of the reduced key.
* Fallible builders return `Option`; `none` is the rejection value
  (`return None` in the source).
-/

/-- A 3-D coordinate, embedding one row of a `pos` tensor. -/
structure Vec3 where
  x : ℚ
  y : ℚ
  z : ℚ
deriving DecidableEq, Inhabited

/-- Squared Euclidean distance between two points; `(pos_center - pos).norm`
of the source is compared through its square. -/
def sqDist (a b : Vec3) : ℚ :=
  (a.x - b.x) ^ 2 + (a.y - b.y) ^ 2 + (a.z - b.z) ^ 2

/-- Integer-index gather, embedding `tensor[index_list]`; with the list of
indices of the `true` positions of a mask it embeds boolean-mask indexing
`tensor[mask]`. -/
def gather {α : Type} [Inhabited α] (l : List α) (idx : List Nat) : List α :=
  idx.map (fun i => l.getD i default)

/-- Modelled from the spec: the seed-to-key mixing of the external
`sklearn.utils.shuffle(range(data_size), random_state=seed)` call used by
`get_idx_split` (datasets.py line 152).  The spec describes it only as "a
pseudo-random permutation of `[0, size)` seeded by `seed`"; the library
internals are not part of this repository, so the permutation is modelled
as a stable sort of `[0, size)` by a seeded linear-congruential key. -/
def mixKey (seed i : Nat) : Nat :=
  (1103515245 * (seed + i) + 12345) % 2147483648

/-- Modelled from the spec: a deterministic pseudo-random permutation of
`[0, size)` seeded by `seed`, standing for `sklearn.utils.shuffle`. -/
def shuffleModel (seed size : Nat) : List Nat :=
  List.insertionSort (fun a b => mixKey seed a ≤ mixKey seed b) (List.range size)

/-- The `{train, valid, test}` index dictionary returned by
`get_idx_split` (datasets.py lines 151-156). -/
structure SplitDict where
  train : List Nat
  valid : List Nat
  test : List Nat
deriving DecidableEq

/-- Embedding of `QM93D.get_idx_split` / `TheMainDataset.get_idx_split`
(datasets.py lines 151-156 and 276-281): shuffle `[0, data_size)`, then
slice `ids[:train_size]`, `ids[train_size:train_size+valid_size]`,
`ids[train_size+valid_size:]`.  Python slicing never raises on
out-of-range bounds, so the function is total. -/
def get_idx_split (data_size train_size valid_size seed : Nat) : SplitDict :=
  ⟨(shuffleModel seed data_size).take train_size,
   ((shuffleModel seed data_size).drop train_size).take valid_size,
   (shuffleModel seed data_size).drop (train_size + valid_size)⟩

/-- One bond row of the source bond table (`mol.GetBonds()`): begin atom
index, end atom index, bond-type code `BOND_TYPES[bond.GetBondType()]`. -/
structure RawBond where
  startIdx : Nat
  endIdx : Nat
  btype : Nat
deriving DecidableEq

/-- One parsed PDB atom as consumed by `pdb_to_data`: atomic number,
position, PDB atom name (`info.GetName().strip()`), and residue number
(`info.GetResidueNumber()`). -/
structure PdbAtom where
  element : Nat
  pos : Vec3
  atomName : String
  resNumber : Int
deriving DecidableEq

/-- A parsed protein structure: the atoms in file order plus the bond
table, the opaque output of the external structure parser. -/
structure RawStructure where
  atoms : List PdbAtom
  bonds : List RawBond
deriving DecidableEq

/-- The four backbone atom names of datasets.py line 575. -/
def backboneNames : List String := ["N", "CA", "C", "O"]

/-- Embedding of the edge-emission loop (datasets.py lines 600-605 and
651-656): each bond contributes the directed edge `(start, end)` and the
reversed edge `(end, start)`, both carrying the bond type. -/
def bothDirections : List RawBond → List ((Nat × Nat) × Nat)
  | [] => []
  | b :: bs =>
    ((b.startIdx, b.endIdx), b.btype) :: ((b.endIdx, b.startIdx), b.btype) :: bothDirections bs

/-- The sort key `edge_index[0] * N + edge_index[1]` of datasets.py
lines 611 and 661. -/
def edgeKey (N : Nat) (e : (Nat × Nat) × Nat) : Nat := e.1.1 * N + e.1.2

/-- Embedding of `perm = (edge_index[0] * N + edge_index[1]).argsort()`
followed by permuting `edge_index` and `edge_type` by the same `perm`
(datasets.py lines 611-613 and 661-663): the (edge, type) rows are sorted
jointly by the key, which keeps `edge_type` index-aligned. -/
def sortEdges (N : Nat) (l : List ((Nat × Nat) × Nat)) : List ((Nat × Nat) × Nat) :=
  List.insertionSort (fun a b => edgeKey N a ≤ edgeKey N b) l

/-- The protein graph record built by `pdb_to_data` (datasets.py
lines 621-623), with the fields the claims are about. -/
structure ProteinData where
  atom_type : List Nat
  pos : List Vec3
  edge_index : List (Nat × Nat)
  edge_type : List Nat
  is_alpha : List Bool
  is_sidechain : List Bool
  atom2res : List Nat
  atom2alpha_index : List Int
deriving DecidableEq

/-- Embedding of `pdb_to_data` (datasets.py lines 532-626) on an already
parsed structure.  Per-atom annotations: `is_alpha` is `name == "CA"`,
`is_sidechain` is `name not in ["N","CA","C","O"]`, the raw residue index
is `residue_number - 1` and is normalised by subtracting the minimum
(`atom2res -= atom2res.min()`; `np.min` needs a nonempty atom list).
`atom2alpha_index` maps every atom to the (last-written) alpha-carbon
index of its residue, `-1` where the residue has none, embedding the
5000-entry `res2alpha_index` buffer.  Rejections: a structure whose
`is_sidechain` mask sums to zero returns `None` (line 594-595), and a
structure whose emitted edge list is empty returns `None`
(lines 609-610); otherwise the both-direction edges are sorted by
`source * N + target` and the record is returned. -/
def pdb_to_data (s : RawStructure) : Option ProteinData :=
  let N := s.atoms.length
  let pos := s.atoms.map (fun a => a.pos)
  let z := s.atoms.map (fun a => a.element)
  let is_alpha := s.atoms.map (fun a => decide (a.atomName = "CA"))
  let is_sidechain := s.atoms.map (fun a => !(backboneNames.contains a.atomName))
  let atom2resRaw := s.atoms.map (fun a => a.resNumber - 1)
  let rmin := (atom2resRaw.min?).getD 0
  let atom2res := atom2resRaw.map (fun r => (r - rmin).toNat)
  let atom2alpha_index : List Int := atom2res.map (fun r =>
    match ((List.range N).filter
        (fun j => is_alpha.getD j false && decide (atom2res.getD j 0 = r))).getLast? with
    | some j => (j : Int)
    | none => -1)
  if is_sidechain.count true = 0 then none
  else
    let raw := bothDirections s.bonds
    if raw.length = 0 then none
    else
      let sorted := sortEdges N raw
      some ⟨z, pos, sorted.map (fun e => e.1), sorted.map (fun e => e.2),
            is_alpha, is_sidechain, atom2res, atom2alpha_index⟩

/-- One atom of a small-molecule conformer (`rdmol_to_data` input). -/
structure MolAtom where
  element : Nat
  pos : Vec3
deriving DecidableEq

/-- A parsed small molecule with one conformer: atoms plus bond table. -/
structure RawMol where
  atoms : List MolAtom
  bonds : List RawBond
deriving DecidableEq

/-- The molecular graph record built by `rdmol_to_data`
(datasets.py lines 672-673). -/
structure MolRecord where
  atom_type : List Nat
  pos : List Vec3
  edge_index : List (Nat × Nat)
  edge_type : List Nat
deriving DecidableEq

/-- Embedding of `rdmol_to_data` (datasets.py lines 629-676): atom types
and positions in atom order, edges emitted in both directions per bond and
sorted by `source * N + target` with `edge_type` permuted alongside. -/
def rdmol_to_data (m : RawMol) : MolRecord :=
  let N := m.atoms.length
  let sorted := sortEdges N (bothDirections m.bonds)
  ⟨m.atoms.map (fun a => a.element), m.atoms.map (fun a => a.pos),
   sorted.map (fun e => e.1), sorted.map (fun e => e.2)⟩

/-- The spec's scenario structure: 10 atoms, one bond `(0, 1)` of type
`t`, no residue data. -/
def mol10 (t : Nat) : RawMol :=
  ⟨(List.range 10).map (fun i => ⟨6, ⟨(i : ℚ), 0, 0⟩⟩), [⟨0, 1, t⟩]⟩

/-- Decides whether a list of residue indices is a zero-based contiguous
range: every integer from 0 up to the maximum occurs in the list. -/
def zeroContiguous (l : List Nat) : Bool :=
  (List.range (l.foldr max 0 + 1)).all (fun m => l.contains m)

/-- The reduced subgraph record built by
`SidechainConformationDataset.__getitem__` (datasets.py lines 1189-1194):
exactly the fields passed to the `Data(...)` constructor there. -/
structure SubgraphData where
  atom_type : List Nat
  pos : List Vec3
  edge_index : List (Nat × Nat)
  edge_type : List Nat
  is_sidechain : List Bool
  atom2res : List Nat
deriving DecidableEq

/-- Embedding of the distance mask `(pos_center_atom - pos).norm(dim=-1) <=
cutoff` (datasets.py lines 1174-1175), through the squared comparison. -/
def near (d : ProteinData) (cutoff : ℚ) (center i : Nat) : Bool :=
  decide (sqDist (d.pos.getD center default) (d.pos.getD i default) ≤ cutoff ^ 2)

/-- Embedding of `scatter(mask, atom2res, dim_size=max_residue,
reduce='sum')` thresholded at zero (datasets.py line 1177): residue `r`
is kept iff `r` lies below the `max_residue` buffer ceiling and some atom
of residue `r` is within the cutoff of the seed atom. -/
def keepResidue (d : ProteinData) (cutoff : ℚ) (maxres center r : Nat) : Bool :=
  decide (r < maxres) &&
    (List.range d.atom2res.length).any
      (fun j => decide (d.atom2res.getD j 0 = r) && near d cutoff center j)

/-- Embedding of `is_keep_atom = is_keep_residue[atom2res]`
(datasets.py line 1178): an atom is kept iff its residue is kept. -/
def keepAtom (d : ProteinData) (cutoff : ℚ) (maxres center i : Nat) : Bool :=
  keepResidue d cutoff maxres center (d.atom2res.getD i 0)

/-- The kept original atom indices, in increasing order — embedding of
`keep_index = dummy_index[is_keep_atom]` (datasets.py line 1182). -/
def keepIdx (d : ProteinData) (cutoff : ℚ) (maxres center : Nat) : List Nat :=
  (List.range d.atom2res.length).filter (fun i => keepAtom d cutoff maxres center i)

/-- Embedding of the old-to-new index map (datasets.py lines 1181-1183):
`mapping = -ones(N); mapping[keep_index] = arange(len(keep_index))`.
A kept atom maps to its rank inside `keepIdx`, every other index to -1. -/
def subgraphMapping (d : ProteinData) (cutoff : ℚ) (maxres center : Nat) (i : Nat) : Int :=
  if i ∈ keepIdx d cutoff maxres center then ((keepIdx d cutoff maxres center).indexOf i : Int)
  else -1

/-- The surviving (edge, type) rows — embedding of `is_keep_edge =
is_keep_atom[edge_index[0]] & is_keep_atom[edge_index[1]]`
(datasets.py line 1179) applied to the joined edge table. -/
def keptEdges (d : ProteinData) (cutoff : ℚ) (maxres center : Nat) : List ((Nat × Nat) × Nat) :=
  (d.edge_index.zip d.edge_type).filter
    (fun e => keepAtom d cutoff maxres center e.1.1 && keepAtom d cutoff maxres center e.1.2)

/-- Embedding of the subgraph sampler
`SidechainConformationDataset.__getitem__` (datasets.py lines 1149-1198)
after the seed atom has been chosen (`center` abstracts both the fixed and
the random seed policy).  If the kept atoms contain no sidechain atom the
sample is discarded (`return None`, lines 1184-1186); otherwise all
atom-indexed fields are gathered under the keep mask and the edge
endpoints are rewritten through the old-to-new map. -/
def subgraphSample (d : ProteinData) (cutoff : ℚ) (maxres center : Nat) : Option SubgraphData :=
  let keep := keepIdx d cutoff maxres center
  if (gather d.is_sidechain keep).count true = 0 then none
  else
    some ⟨gather d.atom_type keep,
          gather d.pos keep,
          (keptEdges d cutoff maxres center).map
            (fun e => ((subgraphMapping d cutoff maxres center e.1.1).toNat,
                       (subgraphMapping d cutoff maxres center e.1.2).toNat)),
          (keptEdges d cutoff maxres center).map (fun e => e.2),
          gather d.is_sidechain keep,
          gather d.atom2res keep⟩

/-- One stored conformer record as consumed by
`PackedConformationDataset._pack_data_by_mol`: the graph fields of
`rdmol_to_data` plus the grouping key (`smiles` / `idx`), the optional
per-conformer scalars, and the packing fields (absent, i.e. `none`,
before packing). -/
structure ConfRecord where
  molId : String
  atom_type : List Nat
  pos : List Vec3
  edge_index : List (Nat × Nat)
  edge_type : List Nat
  totalenergy : Option ℚ
  boltzmannweight : Option ℚ
  pos_ref : Option (List Vec3)
  num_pos_ref : Option Nat
deriving DecidableEq, Inhabited

/-- Embedding of the per-group body of `_pack_data_by_mol` (datasets.py
lines 1293-1308): deep-copy the first record of the group, concatenate
every member's `pos` into `pos_ref`, set `num_pos_ref` to the group size,
and delete `totalenergy` and `boltzmannweight`.  (`del data.pos` is
commented out in the source, so `pos` is retained.) -/
def packGroup : List ConfRecord → ConfRecord
  | [] => default
  | r0 :: rest =>
    ⟨r0.molId, r0.atom_type, r0.pos, r0.edge_index, r0.edge_type, none, none,
     some (((r0 :: rest).map (fun r => r.pos)).flatten),
     some (r0 :: rest).length⟩

/-- The grouping keys in first-occurrence order, embedding the iteration
order of the `defaultdict` built in `_pack_data_by_mol` (datasets.py
lines 1278-1286): Python dicts iterate keys in insertion order. -/
def firstOccKeys : List String → List String
  | [] => []
  | a :: l => a :: firstOccKeys (l.filter (fun b => !(b == a)))
termination_by l => l.length
decreasing_by
  simp only [List.length_cons]
  exact Nat.lt_succ_of_le (List.length_filter_le _ _)

/-- Embedding of `PackedConformationDataset._pack_data_by_mol`
(datasets.py lines 1274-1309): group the records by `molId` (insertion
order preserved within a group, keys in first-occurrence order) and pack
each group. -/
def pack_data_by_mol (recs : List ConfRecord) : List ConfRecord :=
  (firstOccKeys (recs.map (fun r => r.molId))).map
    (fun k => packGroup (recs.filter (fun r => r.molId == k)))

/-- Witness structure for C5: a single backbone nitrogen atom, no bonds. -/
def structGly : RawStructure := ⟨[⟨7, ⟨0, 0, 0⟩, "N", 1⟩], []⟩

/-- Structure exhibiting a residue-number gap: two sidechain carbon atoms
in residues numbered 1 and 3, one bond between them. -/
def cex9 : RawStructure :=
  ⟨[⟨6, ⟨0, 0, 0⟩, "CB", 1⟩, ⟨6, ⟨1, 0, 0⟩, "CB", 3⟩], [⟨0, 1, 1⟩]⟩

/-- The full record built from `cex9`. -/
def recC9 : ProteinData :=
  ⟨[6, 6], [⟨0, 0, 0⟩, ⟨1, 0, 0⟩], [(0, 1), (1, 0)], [1, 1],
   [false, false], [true, true], [0, 2], [-1, -1]⟩

/-- A small two-atom protein record (one backbone atom, one sidechain
atom, one residue) used to instantiate the sampler theorems. -/
def protSmall : ProteinData :=
  ⟨[6, 7], [⟨0, 0, 0⟩, ⟨0, 0, 1⟩], [(0, 1), (1, 0)], [1, 1],
   [false, false], [false, true], [0, 0], [-1, -1]⟩

/-- The subgraph the sampler produces from `protSmall` with cutoff 10,
`max_residue` 5000, center atom 0. -/
def subSmall : SubgraphData :=
  ⟨[6, 7], [⟨0, 0, 0⟩, ⟨0, 0, 1⟩], [(0, 1), (1, 0)], [1, 1], [false, true], [0, 0]⟩

/-- Two conformer records of the same molecule `"M"`, one atom each. -/
def confA : ConfRecord :=
  ⟨"M", [6], [⟨0, 0, 0⟩], [], [], some 1, some 1, none, none⟩

/-- Second conformer of molecule `"M"`. -/
def confB : ConfRecord :=
  ⟨"M", [6], [⟨1, 0, 0⟩], [], [], some 2, some 2, none, none⟩

/-- The modelled shuffle is a permutation of `[0, size)`. -/
theorem shuffleModel_perm (seed size : Nat) :
    List.Perm (shuffleModel seed size) (List.range size) :=
  List.perm_insertionSort _ _

/-- The modelled shuffle has length `size`. -/
theorem shuffleModel_length (seed size : Nat) : (shuffleModel seed size).length = size := by
  rw [(shuffleModel_perm seed size).length_eq, List.length_range]

/-- The modelled shuffle has no duplicate indices. -/
theorem shuffleModel_nodup (seed size : Nat) : (shuffleModel seed size).Nodup :=
  ((shuffleModel_perm seed size).nodup_iff).mpr (List.nodup_range size)

/-- The three slices of `get_idx_split` reassemble the shuffled list. -/
theorem get_idx_split_decomp (size t v seed : Nat) :
    (get_idx_split size t v seed).train ++
      ((get_idx_split size t v seed).valid ++ (get_idx_split size t v seed).test) =
    shuffleModel seed size := by
  show (shuffleModel seed size).take t ++
      (((shuffleModel seed size).drop t).take v ++ (shuffleModel seed size).drop (t + v)) = _
  rw [← List.drop_drop, List.take_append_drop, List.take_append_drop]

/-- The concatenation of the three returned index lists is a permutation
of `[0, size)`, with no precondition on the requested sizes. -/
theorem get_idx_split_union_perm (size t v seed : Nat) :
    List.Perm
      ((get_idx_split size t v seed).train ++ (get_idx_split size t v seed).valid ++
        (get_idx_split size t v seed).test)
      (List.range size) := by
  rw [List.append_assoc, get_idx_split_decomp]
  exact shuffleModel_perm seed size

/-- The three returned index lists are pairwise disjoint, with no
precondition on the requested sizes. -/
theorem get_idx_split_disjoint (size t v seed : Nat) :
    (get_idx_split size t v seed).train.Disjoint (get_idx_split size t v seed).valid ∧
    (get_idx_split size t v seed).train.Disjoint (get_idx_split size t v seed).test ∧
    (get_idx_split size t v seed).valid.Disjoint (get_idx_split size t v seed).test := by
  have hnd : ((get_idx_split size t v seed).train ++
      ((get_idx_split size t v seed).valid ++ (get_idx_split size t v seed).test)).Nodup := by
    rw [get_idx_split_decomp]
    exact shuffleModel_nodup seed size
  obtain ⟨h1, h23, d1⟩ := List.nodup_append.mp hnd
  obtain ⟨h2, h3, d23⟩ := List.nodup_append.mp h23
  exact ⟨fun _ ha hb => d1 ha (List.mem_append_left _ hb),
         fun _ ha hb => d1 ha (List.mem_append_right _ hb),
         d23⟩

/-- Sorting the union of the three returned index lists yields exactly
`[0, size)`. -/
theorem get_idx_split_union_sorted (size t v seed : Nat) :
    List.insertionSort (· ≤ ·)
      ((get_idx_split size t v seed).train ++ (get_idx_split size t v seed).valid ++
        (get_idx_split size t v seed).test) = List.range size := by
  have h1 : List.Perm
      (List.insertionSort (· ≤ ·)
        ((get_idx_split size t v seed).train ++ (get_idx_split size t v seed).valid ++
          (get_idx_split size t v seed).test))
      (List.range size) :=
    (List.perm_insertionSort _ _).trans (get_idx_split_union_perm size t v seed)
  have h2 : (List.insertionSort (· ≤ ·)
      ((get_idx_split size t v seed).train ++ (get_idx_split size t v seed).valid ++
        (get_idx_split size t v seed).test)).Sorted (· ≤ ·) :=
    List.sorted_insertionSort _ _
  have h3 : (List.range size).Sorted (· ≤ ·) :=
    (List.sorted_lt_range size).imp (fun h => Nat.le_of_lt h)
  exact List.eq_of_perm_of_sorted h1 h2 h3

/-- Length of the returned train slice (unconditional form). -/
theorem get_idx_split_train_length (size t v seed : Nat) :
    (get_idx_split size t v seed).train.length = min t size := by
  show ((shuffleModel seed size).take t).length = _
  rw [List.length_take, shuffleModel_length]

/-- Length of the returned valid slice (unconditional form). -/
theorem get_idx_split_valid_length (size t v seed : Nat) :
    (get_idx_split size t v seed).valid.length = min v (size - t) := by
  show (((shuffleModel seed size).drop t).take v).length = _
  rw [List.length_take, List.length_drop, shuffleModel_length]

/-- Length of the returned test slice (unconditional form). -/
theorem get_idx_split_test_length (size t v seed : Nat) :
    (get_idx_split size t v seed).test.length = size - (t + v) := by
  show ((shuffleModel seed size).drop (t + v)).length = _
  rw [List.length_drop, shuffleModel_length]

/-- C1: for every `size`, `train_count`, `valid_count` and `seed` with
`train_count + valid_count ≤ size`, `get_idx_split` returns three index
sets that are pairwise disjoint, whose union sorted equals `[0, size)`,
with the train set of size `train_count` and the valid set of size
`valid_count`; and calling it again with identical arguments yields the
identical three sets. -/
theorem get_idx_split_partition (size t v seed : Nat) (h : t + v ≤ size) :
    (get_idx_split size t v seed).train.Disjoint (get_idx_split size t v seed).valid ∧
    (get_idx_split size t v seed).train.Disjoint (get_idx_split size t v seed).test ∧
    (get_idx_split size t v seed).valid.Disjoint (get_idx_split size t v seed).test ∧
    List.insertionSort (· ≤ ·)
      ((get_idx_split size t v seed).train ++ (get_idx_split size t v seed).valid ++
        (get_idx_split size t v seed).test) = List.range size ∧
    (get_idx_split size t v seed).train.length = t ∧
    (get_idx_split size t v seed).valid.length = v ∧
    get_idx_split size t v seed = get_idx_split size t v seed := by
  obtain ⟨d1, d2, d3⟩ := get_idx_split_disjoint size t v seed
  refine ⟨d1, d2, d3, get_idx_split_union_sorted size t v seed, ?_, ?_, rfl⟩
  · rw [get_idx_split_train_length]; omega
  · rw [get_idx_split_valid_length]; omega

/-- Witness for C1 at `size = 5`, `train = 3`, `valid = 1`, `seed = 7`. -/
theorem get_idx_split_partition_witness :
    3 + 1 ≤ 5 ∧
    ((get_idx_split 5 3 1 7).train.Disjoint (get_idx_split 5 3 1 7).valid ∧
     (get_idx_split 5 3 1 7).train.Disjoint (get_idx_split 5 3 1 7).test ∧
     (get_idx_split 5 3 1 7).valid.Disjoint (get_idx_split 5 3 1 7).test ∧
     List.insertionSort (· ≤ ·)
       ((get_idx_split 5 3 1 7).train ++ (get_idx_split 5 3 1 7).valid ++
         (get_idx_split 5 3 1 7).test) = List.range 5 ∧
     (get_idx_split 5 3 1 7).train.length = 3 ∧
     (get_idx_split 5 3 1 7).valid.length = 1 ∧
     get_idx_split 5 3 1 7 = get_idx_split 5 3 1 7) :=
  ⟨by decide, get_idx_split_partition 5 3 1 7 (by decide)⟩

/-- C2 counterexample: at `size = 2`, `train = 3`, `valid = 1` (so
`train + valid > size`) the splitter does not fail: it returns a value,
with the train slice silently truncated to the 2 available indices
(not the 3 requested) and empty valid/test slices. -/
theorem get_idx_split_no_failfast :
    (get_idx_split 2 3 1 0).train = [0, 1] ∧
    (get_idx_split 2 3 1 0).valid = [] ∧
    (get_idx_split 2 3 1 0).test = [] ∧
    ¬(get_idx_split 2 3 1 0).train.length = 3 := by decide

/-- C2 (amended): when `train_count + valid_count > size` the splitter
does not raise; it silently truncates: the train set gets
`min train_count size` indices, the valid set the next
`min valid_count (size - train_count)`, the test set the remaining
`size - (train_count + valid_count)`, and the result is still a disjoint
partition of `[0, size)`. -/
theorem get_idx_split_truncates (size t v seed : Nat) (h : size < t + v) :
    (get_idx_split size t v seed).train.length = min t size ∧
    (get_idx_split size t v seed).valid.length = min v (size - t) ∧
    (get_idx_split size t v seed).test.length = size - (t + v) ∧
    (get_idx_split size t v seed).train.Disjoint (get_idx_split size t v seed).valid ∧
    (get_idx_split size t v seed).train.Disjoint (get_idx_split size t v seed).test ∧
    (get_idx_split size t v seed).valid.Disjoint (get_idx_split size t v seed).test ∧
    List.Perm
      ((get_idx_split size t v seed).train ++ (get_idx_split size t v seed).valid ++
        (get_idx_split size t v seed).test)
      (List.range size) := by
  obtain ⟨d1, d2, d3⟩ := get_idx_split_disjoint size t v seed
  exact ⟨get_idx_split_train_length size t v seed, get_idx_split_valid_length size t v seed,
         get_idx_split_test_length size t v seed, d1, d2, d3,
         get_idx_split_union_perm size t v seed⟩

/-- Witness for the amended C2 at `size = 2`, `train = 3`, `valid = 1`,
`seed = 0`. -/
theorem get_idx_split_truncates_witness :
    2 < 3 + 1 ∧
    ((get_idx_split 2 3 1 0).train.length = min 3 2 ∧
     (get_idx_split 2 3 1 0).valid.length = min 1 (2 - 3) ∧
     (get_idx_split 2 3 1 0).test.length = 2 - (3 + 1) ∧
     (get_idx_split 2 3 1 0).train.Disjoint (get_idx_split 2 3 1 0).valid ∧
     (get_idx_split 2 3 1 0).train.Disjoint (get_idx_split 2 3 1 0).test ∧
     (get_idx_split 2 3 1 0).valid.Disjoint (get_idx_split 2 3 1 0).test ∧
     List.Perm
       ((get_idx_split 2 3 1 0).train ++ (get_idx_split 2 3 1 0).valid ++
         (get_idx_split 2 3 1 0).test)
       (List.range 2)) :=
  ⟨by decide, get_idx_split_truncates 2 3 1 0 (by decide)⟩

/-- Sorting the edge rows is a permutation of the emitted rows. -/
theorem sortEdges_perm (N : Nat) (l : List ((Nat × Nat) × Nat)) :
    List.Perm (sortEdges N l) l :=
  List.perm_insertionSort _ _

/-- The sorted edge rows are non-decreasing in the key `source * N + target`. -/
theorem sortEdges_sorted (N : Nat) (l : List ((Nat × Nat) × Nat)) :
    ((sortEdges N l).map (edgeKey N)).Sorted (· ≤ ·) := by
  haveI ht : IsTotal ((Nat × Nat) × Nat) (fun a b => edgeKey N a ≤ edgeKey N b) :=
    ⟨fun a b => Nat.le_total _ _⟩
  haveI htr : IsTrans ((Nat × Nat) × Nat) (fun a b => edgeKey N a ≤ edgeKey N b) :=
    ⟨fun _ _ _ h1 h2 => Nat.le_trans h1 h2⟩
  exact List.pairwise_map.mpr (List.sorted_insertionSort _ l)

/-- Zipping the first and second projections of a list of pairs recovers
the list. -/
theorem zip_proj_eq {α β : Type} (l : List (α × β)) :
    (l.map (fun e => e.1)).zip (l.map (fun e => e.2)) = l := by
  rw [List.zip_map']
  simp

/-- C4: the builder emits each bond of the source bond table as two
directed edges (both directions), and the resulting `edge_index` is
sorted in increasing `source * N + target` order with `edge_type`
permuted by the same sort so it stays index-aligned; in particular a
structure with 10 atoms and one bond `(0, 1)` of type `t` yields
`edge_index = [(0,1), (1,0)]` and `edge_type = [t, t]`. -/
theorem edges_both_directions_sorted :
    (∀ (N : Nat) (bs : List RawBond),
        List.Perm (sortEdges N (bothDirections bs)) (bothDirections bs) ∧
        ((sortEdges N (bothDirections bs)).map (edgeKey N)).Sorted (· ≤ ·)) ∧
    (∀ m : RawMol,
        List.Perm ((rdmol_to_data m).edge_index.zip (rdmol_to_data m).edge_type)
          (bothDirections m.bonds) ∧
        ((rdmol_to_data m).edge_index.map
            (fun p => p.1 * m.atoms.length + p.2)).Sorted (· ≤ ·)) ∧
    (∀ t : Nat,
        (rdmol_to_data (mol10 t)).edge_index = [(0, 1), (1, 0)] ∧
        (rdmol_to_data (mol10 t)).edge_type = [t, t]) := by
  refine ⟨fun N bs => ⟨sortEdges_perm N _, sortEdges_sorted N _⟩, fun m => ⟨?_, ?_⟩,
          fun t => ⟨rfl, rfl⟩⟩
  · show List.Perm
      (((sortEdges m.atoms.length (bothDirections m.bonds)).map (fun e => e.1)).zip
        ((sortEdges m.atoms.length (bothDirections m.bonds)).map (fun e => e.2)))
      (bothDirections m.bonds)
    rw [zip_proj_eq]
    exact sortEdges_perm _ _
  · show (((sortEdges m.atoms.length (bothDirections m.bonds)).map (fun e => e.1)).map
        (fun p => p.1 * m.atoms.length + p.2)).Sorted (· ≤ ·)
    rw [List.map_map]
    exact sortEdges_sorted m.atoms.length (bothDirections m.bonds)

/-- C5: `pdb_to_data` rejects (returns `none`) every (nonempty) input
structure that has zero bonds, and every structure whose atoms are all
backbone atoms (zero sidechain atoms); no record is emitted for a
rejected input. -/
theorem pdb_to_data_rejects (s : RawStructure) (hne : s.atoms ≠ [])
    (h : s.bonds = [] ∨ ∀ a ∈ s.atoms, a.atomName ∈ backboneNames) :
    pdb_to_data s = none := by
  rcases h with h | h
  · by_cases hc : (s.atoms.map (fun a => !(backboneNames.contains a.atomName))).count true = 0
    · simp only [pdb_to_data]
      rw [if_pos hc]
    · simp only [pdb_to_data]
      rw [if_neg hc, h]
      rfl
  · have hc : (s.atoms.map (fun a => !(backboneNames.contains a.atomName))).count true = 0 := by
      rw [List.count_eq_zero]
      intro hmem
      obtain ⟨a, ha, hb⟩ := List.mem_map.mp hmem
      have helem : backboneNames.elem a.atomName = true := List.elem_iff.mpr (h a ha)
      have : backboneNames.contains a.atomName = true := helem
      rw [this] at hb
      exact Bool.false_ne_true hb
    simp only [pdb_to_data]
    rw [if_pos hc]

/-- Witness for C5 at `structGly` (both rejection conditions hold). -/
theorem pdb_to_data_rejects_witness :
    structGly.atoms ≠ [] ∧ pdb_to_data structGly = none :=
  ⟨by decide, pdb_to_data_rejects structGly (by decide) (Or.inl rfl)⟩

/-- C9 counterexample: `pdb_to_data` on `cex9` succeeds and produces
`atom2res = [0, 2]` — the minimum is 0 but the value 1 between 0 and the
maximum 2 is attained by no atom, so the values are not a contiguous
range. -/
theorem pdb_to_data_atom2res_not_contiguous :
    (pdb_to_data cex9).map (fun d => d.atom2res) = some [0, 2] ∧
    (pdb_to_data cex9).map (fun d => zeroContiguous d.atom2res) = some false := by decide

/-- C9 (amended): for every record produced by `pdb_to_data` the
`atom2res` values are zero-based — the minimum value 0 is attained (all
values are naturals, hence nonnegative); contiguity of the whole range is
not guaranteed, since the values are the source residue numbers shifted
down by their minimum. -/
theorem pdb_to_data_atom2res_zero_based (s : RawStructure) (d : ProteinData)
    (h : pdb_to_data s = some d) : 0 ∈ d.atom2res := by
  simp only [pdb_to_data] at h
  by_cases hc : (s.atoms.map (fun a => !(backboneNames.contains a.atomName))).count true = 0
  · rw [if_pos hc] at h
    exact absurd h (by simp)
  · rw [if_neg hc] at h
    by_cases hb : (bothDirections s.bonds).length = 0
    · rw [if_pos hb] at h
      exact absurd h (by simp)
    · rw [if_neg hb] at h
      rw [Option.some.injEq] at h
      subst h
      have hsne : s.atoms ≠ [] := by
        intro he
        apply hc
        rw [he]
        rfl
      have hrawne : s.atoms.map (fun a => a.resNumber - 1) ≠ [] := by
        simp [hsne]
      obtain ⟨m, hm⟩ : ∃ m, (s.atoms.map (fun a => a.resNumber - 1)).min? = some m := by
        cases hmin : (s.atoms.map (fun a => a.resNumber - 1)).min? with
        | none => exact absurd (List.min?_eq_none_iff.mp hmin) hrawne
        | some m => exact ⟨m, rfl⟩
      have hmem : m ∈ s.atoms.map (fun a => a.resNumber - 1) :=
        List.min?_mem (fun x y => min_choice x y) hm
      show 0 ∈ (s.atoms.map (fun a => a.resNumber - 1)).map
        (fun r => (r - ((s.atoms.map (fun a => a.resNumber - 1)).min?.getD 0)).toNat)
      rw [hm]
      refine List.mem_map.mpr ⟨m, hmem, ?_⟩
      simp

/-- Witness for the amended C9 at `cex9`. -/
theorem pdb_to_data_atom2res_zero_based_witness : 0 ∈ recC9.atom2res :=
  pdb_to_data_atom2res_zero_based cex9 recC9 (by decide)

/-- The kept indices are strictly increasing (original relative order). -/
theorem keepIdx_sorted (d : ProteinData) (cutoff : ℚ) (maxres center : Nat) :
    (keepIdx d cutoff maxres center).Sorted (· < ·) :=
  List.Pairwise.filter _ (List.pairwise_lt_range _)

/-- The kept indices contain no duplicates. -/
theorem keepIdx_nodup (d : ProteinData) (cutoff : ℚ) (maxres center : Nat) :
    (keepIdx d cutoff maxres center).Nodup :=
  (List.nodup_range _).filter _

/-- Membership in the kept-index list. -/
theorem mem_keepIdx (d : ProteinData) (cutoff : ℚ) (maxres center i : Nat) :
    i ∈ keepIdx d cutoff maxres center ↔
      i < d.atom2res.length ∧ keepAtom d cutoff maxres center i = true := by
  unfold keepIdx
  rw [List.mem_filter, List.mem_range]

/-- A successful sample is exactly the gathered-and-remapped record. -/
theorem subgraphSample_some_eq (d : ProteinData) (cutoff : ℚ) (maxres center : Nat)
    (sg : SubgraphData) (h : subgraphSample d cutoff maxres center = some sg) :
    sg = ⟨gather d.atom_type (keepIdx d cutoff maxres center),
          gather d.pos (keepIdx d cutoff maxres center),
          (keptEdges d cutoff maxres center).map
            (fun e => ((subgraphMapping d cutoff maxres center e.1.1).toNat,
                       (subgraphMapping d cutoff maxres center e.1.2).toNat)),
          (keptEdges d cutoff maxres center).map (fun e => e.2),
          gather d.is_sidechain (keepIdx d cutoff maxres center),
          gather d.atom2res (keepIdx d cutoff maxres center)⟩ := by
  simp only [subgraphSample] at h
  by_cases hc : (gather d.is_sidechain (keepIdx d cutoff maxres center)).count true = 0
  · rw [if_pos hc] at h
    exact absurd h (by simp)
  · rw [if_neg hc] at h
    rw [Option.some.injEq] at h
    exact h.symm

/-- On a kept index, the old-to-new map is the rank in `keepIdx`. -/
theorem subgraphMapping_mem_eq (d : ProteinData) (cutoff : ℚ) (maxres center i : Nat)
    (hi : i ∈ keepIdx d cutoff maxres center) :
    subgraphMapping d cutoff maxres center i =
      ((keepIdx d cutoff maxres center).indexOf i : Int) := by
  unfold subgraphMapping
  rw [if_pos hi]

/-- The old-to-new map sends the `j`-th kept index to `j`. -/
theorem subgraphMapping_get (d : ProteinData) (cutoff : ℚ) (maxres center : Nat)
    (j : Nat) (hj : j < (keepIdx d cutoff maxres center).length) :
    subgraphMapping d cutoff maxres center ((keepIdx d cutoff maxres center).get ⟨j, hj⟩) =
      (j : Int) := by
  unfold subgraphMapping
  rw [if_pos (List.get_mem _ _ hj)]
  rw [List.get_indexOf (keepIdx_nodup d cutoff maxres center) ⟨j, hj⟩]

/-- On a kept index, the remapped value is a valid reduced index. -/
theorem subgraphMapping_toNat_lt (d : ProteinData) (cutoff : ℚ) (maxres center i : Nat)
    (hi : i ∈ keepIdx d cutoff maxres center) :
    (subgraphMapping d cutoff maxres center i).toNat <
      (keepIdx d cutoff maxres center).length := by
  rw [subgraphMapping_mem_eq d cutoff maxres center i hi, Int.toNat_ofNat]
  exact List.indexOf_lt_length.mpr hi

/-- C3: in every subgraph returned by the sampler, for every residue id
that appears among the kept atoms, every atom of that residue in the
source record is kept; equivalently, an atom is kept iff its residue
contains at least one atom within the cutoff distance of the chosen seed
atom's position. -/
theorem subgraph_residue_complete (d : ProteinData) (cutoff : ℚ) (maxres center : Nat)
    (hres : ∀ r ∈ d.atom2res, r < maxres)
    (sg : SubgraphData) (h : subgraphSample d cutoff maxres center = some sg) :
    sg.atom2res = (keepIdx d cutoff maxres center).map (fun i => d.atom2res.getD i 0) ∧
    (∀ r ∈ sg.atom2res, ∀ i, i < d.atom2res.length → d.atom2res.getD i 0 = r →
        i ∈ keepIdx d cutoff maxres center) ∧
    (∀ i, i < d.atom2res.length →
        (keepAtom d cutoff maxres center i = true ↔
          ∃ j, j < d.atom2res.length ∧ d.atom2res.getD j 0 = d.atom2res.getD i 0 ∧
            near d cutoff center j = true)) := by
  have hsg := subgraphSample_some_eq d cutoff maxres center sg h
  subst hsg
  refine ⟨rfl, ?_, ?_⟩
  · intro r hr i hi hir
    obtain ⟨j, hj, hjr⟩ := List.mem_map.mp hr
    have hjk : keepAtom d cutoff maxres center j = true := (List.mem_filter.mp hj).2
    have hik : keepAtom d cutoff maxres center i = true := by
      show keepResidue d cutoff maxres center (d.atom2res.getD i 0) = true
      rw [hir, ← hjr]
      exact hjk
    exact (mem_keepIdx d cutoff maxres center i).mpr ⟨hi, hik⟩
  · intro i hi
    constructor
    · intro hk
      have hk' : keepResidue d cutoff maxres center (d.atom2res.getD i 0) = true := hk
      unfold keepResidue at hk'
      rw [Bool.and_eq_true] at hk'
      obtain ⟨-, hany⟩ := hk'
      rw [List.any_eq_true] at hany
      obtain ⟨j, hj, hjp⟩ := hany
      rw [Bool.and_eq_true] at hjp
      exact ⟨j, List.mem_range.mp hj, of_decide_eq_true hjp.1, hjp.2⟩
    · rintro ⟨j, hj, hjr, hnear⟩
      show keepResidue d cutoff maxres center (d.atom2res.getD i 0) = true
      unfold keepResidue
      rw [Bool.and_eq_true]
      have hmemi : d.atom2res.getD i 0 ∈ d.atom2res := by
        rw [List.getD_eq_getElem _ _ hi]
        exact List.getElem_mem _
      refine ⟨decide_eq_true (hres _ hmemi), ?_⟩
      rw [List.any_eq_true]
      refine ⟨j, List.mem_range.mpr hj, ?_⟩
      rw [Bool.and_eq_true]
      exact ⟨decide_eq_true hjr, hnear⟩

/-- C6: the sampler returns `none` exactly when the kept atoms contain
zero sidechain atoms (a "no sample" outcome, not an error); whenever it
returns a subgraph, that subgraph has at least one sidechain atom. -/
theorem subgraph_none_iff (d : ProteinData) (cutoff : ℚ) (maxres center : Nat) :
    (subgraphSample d cutoff maxres center = none ↔
      (gather d.is_sidechain (keepIdx d cutoff maxres center)).count true = 0) ∧
    ∀ sg, subgraphSample d cutoff maxres center = some sg → 0 < sg.is_sidechain.count true := by
  by_cases hc : (gather d.is_sidechain (keepIdx d cutoff maxres center)).count true = 0
  · constructor
    · simp only [subgraphSample]
      rw [if_pos hc]
      simp [hc]
    · intro sg hsg
      simp only [subgraphSample] at hsg
      rw [if_pos hc] at hsg
      exact absurd hsg (by simp)
  · constructor
    · simp only [subgraphSample]
      rw [if_neg hc]
      simp [hc]
    · intro sg hsg
      have heq := subgraphSample_some_eq d cutoff maxres center sg hsg
      subst heq
      exact Nat.pos_of_ne_zero hc

/-- C7: in every subgraph returned by the sampler the old-to-new index
map is dense and order-preserving onto `[0, M)` (the kept indices are
strictly increasing and the `j`-th kept index maps to `j`), every
remapped edge endpoint is a valid index into the reduced atom arrays, and
mapping each kept subgraph atom back to its original index recovers
exactly the original position and atom-type values. -/
theorem subgraph_reindex (d : ProteinData) (cutoff : ℚ) (maxres center : Nat)
    (hedge : ∀ p ∈ d.edge_index, p.1 < d.atom2res.length ∧ p.2 < d.atom2res.length)
    (sg : SubgraphData) (h : subgraphSample d cutoff maxres center = some sg) :
    (keepIdx d cutoff maxres center).Sorted (· < ·) ∧
    sg.pos.length = (keepIdx d cutoff maxres center).length ∧
    (∀ j (hj : j < (keepIdx d cutoff maxres center).length),
        subgraphMapping d cutoff maxres center ((keepIdx d cutoff maxres center).get ⟨j, hj⟩) =
          (j : Int)) ∧
    (∀ p ∈ sg.edge_index, p.1 < sg.pos.length ∧ p.2 < sg.pos.length) ∧
    sg.pos = (keepIdx d cutoff maxres center).map (fun i => d.pos.getD i default) ∧
    sg.atom_type = (keepIdx d cutoff maxres center).map (fun i => d.atom_type.getD i default) := by
  have hsg := subgraphSample_some_eq d cutoff maxres center sg h
  subst hsg
  refine ⟨keepIdx_sorted d cutoff maxres center, by simp [gather],
          fun j hj => subgraphMapping_get d cutoff maxres center j hj, ?_, rfl, rfl⟩
  intro p hp
  obtain ⟨e, he, hpe⟩ := List.mem_map.mp hp
  obtain ⟨hez, hpred⟩ := List.mem_filter.mp he
  obtain ⟨h1, -⟩ := List.of_mem_zip hez
  simp only [Bool.and_eq_true] at hpred
  have hm1 : e.1.1 ∈ keepIdx d cutoff maxres center :=
    (mem_keepIdx d cutoff maxres center e.1.1).mpr ⟨(hedge e.1 h1).1, hpred.1⟩
  have hm2 : e.1.2 ∈ keepIdx d cutoff maxres center :=
    (mem_keepIdx d cutoff maxres center e.1.2).mpr ⟨(hedge e.1 h1).2, hpred.2⟩
  rw [← hpe]
  have hlen : (gather d.pos (keepIdx d cutoff maxres center)).length =
      (keepIdx d cutoff maxres center).length := by simp [gather]
  constructor
  · show (subgraphMapping d cutoff maxres center e.1.1).toNat <
      (gather d.pos (keepIdx d cutoff maxres center)).length
    rw [hlen]
    exact subgraphMapping_toNat_lt d cutoff maxres center e.1.1 hm1
  · show (subgraphMapping d cutoff maxres center e.1.2).toNat <
      (gather d.pos (keepIdx d cutoff maxres center)).length
    rw [hlen]
    exact subgraphMapping_toNat_lt d cutoff maxres center e.1.2 hm2

/-- Atom 0 of `protSmall` is within cutoff 10 of itself. -/
theorem protSmall_near0 : near protSmall 10 0 0 = true := by
  rw [near, decide_eq_true_eq]
  norm_num [sqDist, protSmall]

/-- Every atom of `protSmall` is kept at cutoff 10 around atom 0. -/
theorem protSmall_keepAtom (i : Nat) : keepAtom protSmall 10 5000 0 i = true := by
  have h0 : protSmall.atom2res.getD i 0 = 0 := by
    rcases i with _ | _ | i <;> rfl
  rw [keepAtom, h0, keepResidue, Bool.and_eq_true]
  refine ⟨by decide, ?_⟩
  rw [List.any_eq_true]
  refine ⟨0, by decide, ?_⟩
  rw [Bool.and_eq_true]
  exact ⟨by decide, protSmall_near0⟩

/-- The kept indices of `protSmall` at cutoff 10 around atom 0. -/
theorem protSmall_keepIdx : keepIdx protSmall 10 5000 0 = [0, 1] := by
  rw [keepIdx, show List.range protSmall.atom2res.length = [0, 1] from rfl]
  simp [protSmall_keepAtom]

/-- The surviving edge rows of `protSmall` at cutoff 10 around atom 0. -/
theorem protSmall_keptEdges : keptEdges protSmall 10 5000 0 = [((0, 1), 1), ((1, 0), 1)] := by
  simp only [keptEdges]
  rw [show protSmall.edge_index = [(0, 1), (1, 0)] from rfl,
      show protSmall.edge_type = [1, 1] from rfl]
  simp [protSmall_keepAtom]

/-- The old-to-new map of `protSmall` sends 0 to 0. -/
theorem protSmall_mapping0 : subgraphMapping protSmall 10 5000 0 0 = 0 := by
  simp only [subgraphMapping, protSmall_keepIdx]
  decide

/-- The old-to-new map of `protSmall` sends 1 to 1. -/
theorem protSmall_mapping1 : subgraphMapping protSmall 10 5000 0 1 = 1 := by
  simp only [subgraphMapping, protSmall_keepIdx]
  decide

/-- The sampler on `protSmall` (cutoff 10, `max_residue` 5000, center 0)
returns exactly `subSmall`. -/
theorem protSmall_sample : subgraphSample protSmall 10 5000 0 = some subSmall := by
  simp only [subgraphSample, protSmall_keepIdx, protSmall_keptEdges]
  rw [if_neg (by decide)]
  simp only [List.map_cons, List.map_nil, protSmall_mapping0, protSmall_mapping1]
  decide

/-- Witness for C3 at `protSmall`. -/
theorem subgraph_residue_complete_witness :
    (∀ r ∈ protSmall.atom2res, r < 5000) ∧
    (subSmall.atom2res = (keepIdx protSmall 10 5000 0).map (fun i => protSmall.atom2res.getD i 0) ∧
     (∀ r ∈ subSmall.atom2res, ∀ i, i < protSmall.atom2res.length →
         protSmall.atom2res.getD i 0 = r → i ∈ keepIdx protSmall 10 5000 0) ∧
     (∀ i, i < protSmall.atom2res.length →
         (keepAtom protSmall 10 5000 0 i = true ↔
           ∃ j, j < protSmall.atom2res.length ∧
             protSmall.atom2res.getD j 0 = protSmall.atom2res.getD i 0 ∧
             near protSmall 10 0 j = true))) :=
  ⟨by decide, subgraph_residue_complete protSmall 10 5000 0 (by decide) subSmall protSmall_sample⟩

/-- Witness for C6 at `protSmall`. -/
theorem subgraph_none_iff_witness : 0 < subSmall.is_sidechain.count true :=
  (subgraph_none_iff protSmall 10 5000 0).2 subSmall protSmall_sample

/-- Witness for C7 at `protSmall`. -/
theorem subgraph_reindex_witness :
    (∀ p ∈ protSmall.edge_index,
        p.1 < protSmall.atom2res.length ∧ p.2 < protSmall.atom2res.length) ∧
    ((keepIdx protSmall 10 5000 0).Sorted (· < ·) ∧
     subSmall.pos.length = (keepIdx protSmall 10 5000 0).length ∧
     (∀ j (hj : j < (keepIdx protSmall 10 5000 0).length),
         subgraphMapping protSmall 10 5000 0 ((keepIdx protSmall 10 5000 0).get ⟨j, hj⟩) =
           (j : Int)) ∧
     (∀ p ∈ subSmall.edge_index, p.1 < subSmall.pos.length ∧ p.2 < subSmall.pos.length) ∧
     subSmall.pos = (keepIdx protSmall 10 5000 0).map (fun i => protSmall.pos.getD i default) ∧
     subSmall.atom_type =
       (keepIdx protSmall 10 5000 0).map (fun i => protSmall.atom_type.getD i default)) :=
  ⟨by decide, subgraph_reindex protSmall 10 5000 0 (by decide) subSmall protSmall_sample⟩

/-- Every key occurring in a list occurs among its first-occurrence keys. -/
theorem mem_firstOccKeys : ∀ (l : List String), ∀ k ∈ l, k ∈ firstOccKeys l := by
  intro l
  induction l using firstOccKeys.induct with
  | case1 => intro k hk; exact absurd hk (List.not_mem_nil k)
  | case2 a l ih =>
    intro k hk
    simp only [firstOccKeys]
    rcases List.mem_cons.mp hk with h | h
    · exact h ▸ List.mem_cons_self a _
    · by_cases hak : k = a
      · exact hak ▸ List.mem_cons_self a _
      · refine List.mem_cons_of_mem a (ih k ?_)
        rw [List.mem_filter]
        refine ⟨h, ?_⟩
        simp [hak]

/-- Summing a constant over a list. -/
theorem sum_map_const {α : Type} (l : List α) (f : α → Nat) (N : Nat)
    (h : ∀ x ∈ l, f x = N) : (l.map f).sum = N * l.length := by
  have : l.map f = List.replicate l.length N :=
    List.eq_replicate_iff.mpr ⟨by simp, fun b hb => by
      obtain ⟨x, hx, hfx⟩ := List.mem_map.mp hb
      rw [← hfx]
      exact h x hx⟩
  rw [this, List.sum_replicate, smul_eq_mul, Nat.mul_comm]

/-- C8: for every group of `K` records sharing one `molecule_id` that the
packer packs, the packed record's `pos_ref` is the concatenation of all
`K` members' `pos` arrays in group order with total length `N * K`, its
conformer count `num_pos_ref` equals `K`, and the per-conformer scalar
fields `totalenergy` and `boltzmannweight` are absent from the packed
record; for a group of size 1, `pos_ref` is identical to the source's
`pos`. -/
theorem pack_group_spec (recs : List ConfRecord) (k : String) (N : Nat)
    (grp : List ConfRecord)
    (hgrp : grp = recs.filter (fun r => r.molId == k))
    (hk : k ∈ recs.map (fun r => r.molId))
    (hN : ∀ r ∈ grp, r.pos.length = N) :
    packGroup grp ∈ pack_data_by_mol recs ∧
    (packGroup grp).pos_ref = some ((grp.map (fun r => r.pos)).flatten) ∧
    ((grp.map (fun r => r.pos)).flatten).length = N * grp.length ∧
    (packGroup grp).num_pos_ref = some grp.length ∧
    (packGroup grp).totalenergy = none ∧
    (packGroup grp).boltzmannweight = none ∧
    (∀ r0, grp = [r0] → (packGroup grp).pos_ref = some r0.pos) := by
  have hne : grp ≠ [] := by
    obtain ⟨r, hr, hrk⟩ := List.mem_map.mp hk
    intro he
    have : r ∈ grp := by
      rw [hgrp, List.mem_filter]
      exact ⟨hr, by simp [hrk]⟩
    rw [he] at this
    exact List.not_mem_nil r this
  obtain ⟨r0, rest, hcons⟩ := List.exists_cons_of_ne_nil hne
  refine ⟨?_, ?_, ?_, ?_, ?_, ?_, ?_⟩
  · rw [hgrp]
    exact List.mem_map_of_mem _ (mem_firstOccKeys _ k hk)
  · rw [hcons]; rfl
  · rw [List.length_flatten, List.map_map]
    exact sum_map_const grp _ N hN
  · rw [hcons]; rfl
  · rw [hcons]; rfl
  · rw [hcons]; rfl
  · intro r1 h1
    rw [h1]
    show some (r1.pos ++ [].flatten) = some r1.pos
    simp

/-- C10: the packed record retains the representative's original fields:
`pos` equals the first group member's `pos`, which equals the first `N`
rows of `pos_ref`, and `atom_type` / `edge_index` / `edge_type` equal
those of the first group member. -/
theorem pack_retains_representative (recs : List ConfRecord) (k : String) (N : Nat)
    (r0 : ConfRecord) (rest : List ConfRecord)
    (hgrp : recs.filter (fun r => r.molId == k) = r0 :: rest)
    (hN : ∀ r ∈ recs.filter (fun r => r.molId == k), r.pos.length = N) :
    packGroup (r0 :: rest) ∈ pack_data_by_mol recs ∧
    (packGroup (r0 :: rest)).pos = r0.pos ∧
    ((packGroup (r0 :: rest)).pos_ref.getD []).take N = r0.pos ∧
    (packGroup (r0 :: rest)).atom_type = r0.atom_type ∧
    (packGroup (r0 :: rest)).edge_index = r0.edge_index ∧
    (packGroup (r0 :: rest)).edge_type = r0.edge_type := by
  have hk : k ∈ recs.map (fun r => r.molId) := by
    have hr0 : r0 ∈ recs.filter (fun r => r.molId == k) := by
      rw [hgrp]
      exact List.mem_cons_self r0 rest
    obtain ⟨hr0m, hr0k⟩ := List.mem_filter.mp hr0
    refine List.mem_map.mpr ⟨r0, hr0m, ?_⟩
    exact beq_iff_eq.mp hr0k
  have hN0 : r0.pos.length = N := hN r0 (by rw [hgrp]; exact List.mem_cons_self r0 rest)
  refine ⟨?_, rfl, ?_, rfl, rfl, rfl⟩
  · rw [← hgrp]
    exact List.mem_map_of_mem _ (mem_firstOccKeys _ k hk)
  · show ((r0.pos :: rest.map (fun r => r.pos)).flatten).take N = r0.pos
    rw [List.flatten_cons, ← hN0, List.take_left]

/-- Witness for C8 at the two-record group `[confA, confB]`. -/
theorem pack_group_spec_witness :
    ([confA, confB] = [confA, confB].filter (fun r => r.molId == "M") ∧
     "M" ∈ [confA, confB].map (fun r => r.molId) ∧
     ∀ r ∈ ([confA, confB] : List ConfRecord), r.pos.length = 1) ∧
    (packGroup [confA, confB] ∈ pack_data_by_mol [confA, confB] ∧
     (packGroup [confA, confB]).pos_ref =
       some (([confA, confB].map (fun r => r.pos)).flatten) ∧
     (([confA, confB].map (fun r => r.pos)).flatten).length = 1 * [confA, confB].length ∧
     (packGroup [confA, confB]).num_pos_ref = some ([confA, confB] : List ConfRecord).length ∧
     (packGroup [confA, confB]).totalenergy = none ∧
     (packGroup [confA, confB]).boltzmannweight = none ∧
     (∀ r0, [confA, confB] = [r0] → (packGroup [confA, confB]).pos_ref = some r0.pos)) :=
  ⟨⟨by decide, by decide, by decide⟩,
   pack_group_spec [confA, confB] "M" 1 [confA, confB] (by decide) (by decide) (by decide)⟩

/-- Witness for C10 at the two-record group `[confA, confB]`. -/
theorem pack_retains_representative_witness :
    ([confA, confB].filter (fun r => r.molId == "M") = confA :: [confB] ∧
     ∀ r ∈ [confA, confB].filter (fun r => r.molId == "M"), r.pos.length = 1) ∧
    (packGroup (confA :: [confB]) ∈ pack_data_by_mol [confA, confB] ∧
     (packGroup (confA :: [confB])).pos = confA.pos ∧
     ((packGroup (confA :: [confB])).pos_ref.getD []).take 1 = confA.pos ∧
     (packGroup (confA :: [confB])).atom_type = confA.atom_type ∧
     (packGroup (confA :: [confB])).edge_index = confA.edge_index ∧
     (packGroup (confA :: [confB])).edge_type = confA.edge_type) :=
  ⟨⟨by decide, by decide⟩,
   pack_retains_representative [confA, confB] "M" 1 confA [confB] (by decide) (by decide)⟩
